import Mathlib

/-!
Verification of `src/scripts/extract_region.py` (PdfReader).

The script is a single-shot pipeline: extract the text layer of a PDF
region, classify it as prose or math, and fall back to rasterization plus
remote OCR.  Strings are modelled as `List Char`; the PDF document, the
remote OCR response and subprocess outcomes are oracles supplied as
explicit arguments, so every function below is a pure translation of the
corresponding Python function.
-/

/-- Python `str.split()` splits on whitespace.  We model the whitespace
predicate on the character classes the script can meet; Python's notion is
Unicode-wide, but every theorem below is parametric in the exact table
(both sides of each statement use this same predicate), and all concrete
witnesses use ASCII, where the two notions agree. -/
def pyIsSpace (c : Char) : Bool :=
  c == ' ' || c == '\t' || c == '\n' || c == '\r' || c == '\x0b' || c == '\x0c'

/-- Python `str.isalnum()` restricted to ASCII; same parametricity remark
as for `pyIsSpace`. -/
def pyIsAlnum (c : Char) : Bool :=
  c.isAlphanum

/-- Worker for `str.split()`: `acc` holds the (reversed) current word. -/
def splitAux : List Char → List Char → List (List Char)
  | [], acc => if acc.isEmpty then [] else [acc.reverse]
  | c :: cs, acc =>
    if pyIsSpace c then
      if acc.isEmpty then splitAux cs [] else acc.reverse :: splitAux cs []
    else
      splitAux cs (c :: acc)

/-- Python `t.split()`: split on runs of whitespace, dropping empty words. -/
def pySplit (s : List Char) : List (List Char) :=
  splitAux s []

/-- Python `sep.join(xs)`. -/
def pyJoin (sep : List Char) : List (List Char) → List Char
  | [] => []
  | [w] => w
  | w :: ws => w ++ sep ++ pyJoin sep ws

/-- `normalize_text(t) = " ".join(t.split())`. -/
def normalize_text (s : List Char) : List Char :=
  pyJoin [' '] (pySplit s)

/-- The literal math/Greek/operator character set of `contains_math_like`
(the Python source concatenates two string literals; `→ ← ≥ ≤ ≈` repeat
across the two and `^ _` repeat as well — the Python `set(...)` dedupes,
and `List.contains` is insensitive to duplicates, so membership agrees). -/
def math_chars : List Char :=
  ("∑∫√≤≥≈≠∞π·×÷±→←⇔^_{}|$%#→←≥≤≈≃≅≡⊂⊃⊆⊇∈∉∧∨∩∪⊥⟂⇒∀∃∴∵αβγδθλμνξρστωϕφψΩ").data
    ++ ("=+−*/^_()[]{}<>").data

/-- Number of characters of `s` belonging to the math symbol set. -/
def symbolCount (s : List Char) : Nat :=
  s.countP (fun c => math_chars.contains c)

/-- Number of alphanumeric characters of `s`. -/
def alnumCount (s : List Char) : Nat :=
  s.countP (fun c => pyIsAlnum c)

/-- `contains_math_like` from the source.  The Python float comparison
`symbols / max(1, len(text)) > 0.15` is rendered as the exact rational
comparison `3 * max 1 len < 20 * symbols`.  The two agree on every
reachable input: the ratio branch is only consulted when `symbols ≤ 2`
(short-circuit of `or` after `symbols >= 3`), and for `symbols ≤ 2` the
closest achievable ratios to `0.15` are `2/13` and `1/7`, both at distance
more than `3 · 10⁻³` from `0.15`, far beyond double rounding error.
Python returns the truthy value `symbols >= 3 or (alnum and ratio > 0.15)`
(an `int` when `alnum == 0`); we return its truthiness as a `Bool`, which
is how the single caller `main` consumes it. -/
def contains_math_like (s : List Char) : Bool :=
  if s.isEmpty then
    true
  else
    let symbols := symbolCount s
    let alnum := alnumCount s
    decide (3 ≤ symbols) || (decide (1 ≤ alnum) && decide (3 * max 1 s.length < 20 * symbols))

/-- A PDF document as the pipeline observes it: a page count and, for each
0-based page index, the text layer clipped to the invocation's rectangle —
`none` models PyMuPDF returning `None` from `get_text`. -/
structure Doc where
  pageCount : Nat
  pageText : Nat → Option (List Char)

/-- `extract_text`: returns `""` when the 1-based page number is out of
`[1, pageCount]`, otherwise the clipped page text with `None` coerced to
`""` (the `or ""` in the source). -/
def extract_text (doc : Doc) (page_number : Int) : List Char :=
  if page_number < 1 ∨ page_number > (doc.pageCount : Int) then
    []
  else
    (doc.pageText (page_number - 1).toNat).getD []

/-- PyMuPDF `doc[index]` (`Document.load_page`): a negative index counts
from the end of the document (`index += pageCount`), and an index that is
still out of range raises `ValueError("page not in document")`. -/
def load_page (doc : Doc) (index : Int) : Except (List Char) Nat :=
  let i := if index < 0 then index + (doc.pageCount : Int) else index
  if 0 ≤ i ∧ i < (doc.pageCount : Int) then
    .ok i.toNat
  else
    .error (("page not in document").data)

/-- `render_region_png`: indexes `doc[page_number - 1]` with no range
check of its own.  The pixmap bytes are abstracted by the resolved page
index (the rectangle and scale are fixed per invocation, so the index is
all a response oracle can depend on); the debug image dump only writes to
stderr/tmp and cannot affect the JSON result. -/
def render_region_png (doc : Doc) (page_number : Int) : Except (List Char) Nat :=
  load_page doc (page_number - 1)

/-- Python string truthiness of an `os.getenv` result: `None` and `""` are
falsy. -/
def pyTruthyOpt : Option (List Char) → Bool
  | none => false
  | some s => !s.isEmpty

/-- Python `a or b` on strings: `b` when `a` is empty, else `a`. -/
def pyOrStr (a b : List Char) : List Char :=
  if a.isEmpty then b else a

/-- `startsWith pat s`: `pat` is an initial segment of `s`. -/
def startsWith : List Char → List Char → Bool
  | [], _ => true
  | _ :: _, [] => false
  | p :: ps, c :: cs => p == c && startsWith ps cs

/-- Python `pat in s`: `pat` occurs as a contiguous substring of `s`. -/
def containsSub (pat : List Char) : List Char → Bool
  | [] => startsWith pat []
  | c :: cs => startsWith pat (c :: cs) || containsSub pat cs

/-- One entry of the MathPix `latex_styled` block list as the code reads
it: `block.get("latex", "")`. -/
structure MpBlock where
  latex : Option (List Char)

/-- The fields of a successful (HTTP 200) MathPix JSON body that
`ocr_mathpix` consults, each `none` when the key is absent. -/
structure MpData where
  text : List Char
  latex_styled : Option (List MpBlock)
  latex_simplified : Option (List Char)
  latex : Option (List Char)

/-- Outcome of the `requests.post` call: a raised exception (network
error, bad JSON, …), a non-200 response, or a parsed 200 body. -/
inductive MpOutcome
  | exn (msg : List Char)
  | http (status : Nat) (body : List Char)
  | success (data : MpData)

/-- Environment of `ocr_mathpix`: the two credential variables as
`os.getenv` returns them, and the response oracle keyed by the rendered
page index standing in for the PNG bytes. -/
structure OcrEnv where
  app_id : Option (List Char)
  app_key : Option (List Char)
  response : Nat → MpOutcome

/-- The dictionaries `ocr_mathpix`/`ocr_latexocr` return: `ok: True`
carries `text`, `latex` and `source`; `ok: False` carries `error`. -/
inductive OcrResult
  | ok (text latex src : List Char)
  | err (error : List Char)
deriving DecidableEq

/-- `ocr_mathpix` from the source: credential check, HTTP call, then LaTeX
assembly from `latex_styled` blocks, the `latex_simplified`/`latex`
fallback fields, and finally the text field itself when it carries an
inline/display math delimiter. -/
def ocr_mathpix (env : OcrEnv) (png : Nat) : OcrResult :=
  if pyTruthyOpt env.app_id = false ∨ pyTruthyOpt env.app_key = false then
    .err (("MathPix credentials missing").data)
  else
    match env.response png with
    | .exn e => .err e
    | .http status body =>
      .err ((("MathPix HTTP ").data ++ (Nat.repr status).data ++ (": ").data ++ body))
    | .success data =>
      let latex_blocks := (data.latex_styled).getD []
      let latex_from_blocks :=
        pyJoin (("\n\n").data) (latex_blocks.map (fun b => (b.latex).getD []))
      let latex_direct := pyOrStr ((data.latex_simplified).getD []) ((data.latex).getD [])
      let latex0 := pyOrStr latex_from_blocks latex_direct
      let latex1 :=
        if latex0 = [] ∧ data.text ≠ [] ∧
            (containsSub (("\\(").data) data.text = true ∨
             containsSub (("\\[").data) data.text = true ∨
             containsSub (("$$").data) data.text = true) then
          data.text
        else
          latex0
      .ok data.text latex1 (("ocr-mathpix").data)

/-- Outcome of one `subprocess.run` call: normal completion with a return
code and captured streams, or a raised exception (e.g. `FileNotFoundError`
or `TimeoutExpired` from the 60-second timeout). -/
inductive SpOutcome
  | exits (returncode : Int) (stdout captured : List Char)
  | raises (msg : List Char)

/-- Environment of `ocr_latexocr`: the outcomes of the two candidate
subprocess invocations. -/
structure SubprocEnv where
  latexocrRun : SpOutcome
  pix2texRun : SpOutcome

/-- File-system events of `ocr_latexocr` on its temporary PNG. -/
inductive FsEvent
  | createTmp
  | unlinkTmp
deriving DecidableEq

/-- Python `str.strip()`. -/
def pyStrip (s : List Char) : List Char :=
  ((s.dropWhile pyIsSpace).reverse.dropWhile pyIsSpace).reverse

/-- `ocr_latexocr` from the source, returning its result together with the
trace of file-system events on the temporary file.  The `finally` clause
of the source (an `os.unlink` attempt wrapped in `try/except pass`) runs
on every exit of the `try` block — each early `return`, the final
`return`, and any raised exception (caught by the `except` clause) — so
the translation appends `unlinkTmp` on each branch. -/
def ocr_latexocr (env : SubprocEnv) : OcrResult × List FsEvent :=
  match env.latexocrRun with
  | .raises e => (.err e, [.createTmp, .unlinkTmp])
  | .exits rc out _ =>
    if rc = 0 then
      (.ok [] (pyStrip out) (("ocr-latexocr").data), [.createTmp, .unlinkTmp])
    else
      match env.pix2texRun with
      | .raises e => (.err e, [.createTmp, .unlinkTmp])
      | .exits rc2 out2 e2 =>
        if rc2 = 0 then
          (.ok [] (pyStrip out2) (("ocr-pix2tex").data), [.createTmp, .unlinkTmp])
        else
          (.err (pyOrStr (pyStrip e2) (("latexocr/pix2tex failed").data)),
            [.createTmp, .unlinkTmp])

/-- The outcome `main` prints as JSON. -/
inductive PipeResult
  | ok (text latex src : List Char)
  | err (msg : List Char)
deriving DecidableEq, Repr

/-- The fallible external calls `main` makes after the text-layer stage. -/
inductive PipeCall
  | render
  | ocrMathpix
  | ocrLatexocr
deriving DecidableEq, Repr

/-- The body of `main` after argument parsing and document opening,
returning the printed outcome together with the trace of external calls.
A `.error` from `render_region_png` models the exception propagating to
`main`'s top-level handler, which prints `{"ok": false, "error": str(e)}`.
`ocr_latexocr` is never called (the source comments it out of the chain),
so `.ocrLatexocr` never occurs in a trace. -/
def run_pipeline (doc : Doc) (page_number : Int) (env : OcrEnv) :
    PipeResult × List PipeCall :=
  let raw := normalize_text (extract_text doc page_number)
  if raw ≠ [] ∧ contains_math_like raw = false then
    (.ok raw [] (("smart").data), [])
  else
    match render_region_png doc page_number with
    | .error e => (.err e, [.render])
    | .ok png =>
      match ocr_mathpix env png with
      | .err e =>
        if raw ≠ [] then
          (.ok raw [] (("text-fallback").data), [.render, .ocrMathpix])
        else
          (.err ((("MathPix failed: ").data ++ e)), [.render, .ocrMathpix])
      | .ok text latex src =>
        (.ok (normalize_text text) latex src, [.render, .ocrMathpix])

/-- The `source` tag of a successful outcome. -/
def sourceTag : PipeResult → Option (List Char)
  | .ok _ _ src => some src
  | .err _ => none

/-- A JSON value as the script emits one: all its payloads are strings or
booleans. -/
inductive JVal
  | jstr (s : List Char)
  | jbool (b : Bool)
deriving DecidableEq, Repr

/-- A JSON object: the ordered key/value list `json.dumps` serializes. -/
abbrev JObj := List (List Char × JVal)

/-- The dictionary each `print(json.dumps(...))` call of the script
builds. -/
def resultToJson : PipeResult → JObj
  | .ok t l s =>
    [((("ok").data), .jbool true), ((("text").data), .jstr t),
     ((("latex").data), .jstr l), ((("source").data), .jstr s)]
  | .err e =>
    [((("ok").data), .jbool false), ((("error").data), .jstr e)]

/-- Everything outside the script that determines one invocation: whether
`import fitz` raises (and with what message), the outcome of
argument/stdin parsing reduced to the page number (the rectangle is folded
into `Doc.pageText`, and a raised `KeyError`/`ValueError`/`json` error is
the `.error` case), the outcome of `fitz.open`, and the OCR environment. -/
structure World where
  fitzImportError : Option (List Char)
  argsOutcome : Except (List Char) Int
  openOutcome : Except (List Char) Doc
  ocrEnv : OcrEnv

/-- The whole script: the `import fitz` guard, then `main` under its
top-level `try/except`.  Every path prints exactly one `json.dumps` line
and the process exit status is 0 (the guard calls `sys.exit(0)`; `main`
returns normally otherwise). -/
def script (w : World) : JObj × Nat :=
  match w.fitzImportError with
  | some e => (resultToJson (.err ((("PyMuPDF missing: ").data ++ e))), 0)
  | none =>
    match w.argsOutcome with
    | .error e => (resultToJson (.err e), 0)
    | .ok page =>
      match w.openOutcome with
      | .error e => (resultToJson (.err e), 0)
      | .ok doc => (resultToJson (run_pipeline doc page w.ocrEnv).1, 0)

/-- Lower-case hex digit, as CPython's `json` encoder emits in `\uXXXX`. -/
def hexDig (n : Nat) : Char :=
  if n < 10 then Char.ofNat (48 + n) else Char.ofNat (87 + n)

/-- Four-digit hex rendering of `n < 0x10000`. -/
def toHex4 (n : Nat) : List Char :=
  [hexDig (n / 4096), hexDig (n / 256 % 16), hexDig (n / 16 % 16), hexDig (n % 16)]

/-- CPython `json.dumps` escaping of one character (`ensure_ascii=True`,
the default): `"` and `\` get a backslash escape, the five control
characters with short escapes use them, every other character outside
`0x20..0x7e` becomes `\uXXXX` (a surrogate pair beyond the BMP), and
printable ASCII passes through. -/
def encodeChar (c : Char) : List Char :=
  if c = '"' then ['\\', '"']
  else if c = '\\' then ['\\', '\\']
  else if c = '\n' then ['\\', 'n']
  else if c = '\r' then ['\\', 'r']
  else if c = '\t' then ['\\', 't']
  else if c = '\x08' then ['\\', 'b']
  else if c = '\x0c' then ['\\', 'f']
  else if 0x20 ≤ c.toNat ∧ c.toNat ≤ 0x7e then [c]
  else if c.toNat < 0x10000 then '\\' :: 'u' :: toHex4 c.toNat
  else
    ('\\' :: 'u' :: toHex4 (0xD800 + (c.toNat - 0x10000) / 0x400)) ++
      ('\\' :: 'u' :: toHex4 (0xDC00 + (c.toNat - 0x10000) % 0x400))

/-- Body of a serialized string literal. -/
def strBodyDump (s : List Char) : List Char :=
  (s.map encodeChar).flatten

/-- A serialized string literal. -/
def encodeStr (s : List Char) : List Char :=
  '"' :: strBodyDump s ++ ['"']

/-- A serialized value. -/
def jvalDump : JVal → List Char
  | .jstr s => encodeStr s
  | .jbool true => ("true").data
  | .jbool false => ("false").data

/-- The serialized entry list, with `json.dumps`'s default separators
`", "` and `": "`. -/
def entriesDump : JObj → List Char
  | [] => []
  | [(k, v)] => encodeStr k ++ ':' :: ' ' :: jvalDump v
  | (k, v) :: e :: rest =>
    encodeStr k ++ ':' :: ' ' :: (jvalDump v ++ ',' :: ' ' :: entriesDump (e :: rest))

/-- `json.dumps` of an object of the script's shape. -/
def jdumps (o : JObj) : List Char :=
  '\x7b' :: entriesDump o ++ ['\x7d']

/-- Numeric value of a lower-case hex digit. -/
def hexVal (c : Char) : Option Nat :=
  if '0' ≤ c ∧ c ≤ '9' then some (c.toNat - 48)
  else if 'a' ≤ c ∧ c ≤ 'f' then some (c.toNat - 87)
  else none

/-- Value of four hex digits. -/
def fromHex4 (h1 h2 h3 h4 : Char) : Option Nat :=
  match hexVal h1, hexVal h2, hexVal h3, hexVal h4 with
  | some a, some b, some c, some d => some (((a * 16 + b) * 16 + c) * 16 + d)
  | _, _, _, _ => none

/-- Prepend a decoded character to a string-parse continuation. -/
def consChar (c : Char) (o : Option (List Char × List Char)) :
    Option (List Char × List Char) :=
  o.map (fun p => (c :: p.1, p.2))

/-- The short escapes `\" \\ \n \r \t \b \f`. -/
def shortEscape (e : Char) : Option Char :=
  if e = '"' then some '"'
  else if e = '\\' then some '\\'
  else if e = 'n' then some '\n'
  else if e = 'r' then some '\r'
  else if e = 't' then some '\t'
  else if e = 'b' then some '\x08'
  else if e = 'f' then some '\x0c'
  else none

/-- Parse the body of a JSON string literal up to its closing quote,
accepting exactly the escapes the serializer emits (so its language is a
subset of JSON's); a `\uXXXX` in the high-surrogate range must be followed
by a low surrogate, and the pair decodes to one scalar.  `fuel` bounds the
number of decoded characters. -/
def parseStrBody : Nat → List Char → Option (List Char × List Char)
  | 0, _ => none
  | _ + 1, [] => none
  | fuel + 1, c :: rest =>
    if c = '"' then some ([], rest)
    else if c = '\\' then
      match rest with
      | [] => none
      | e :: rest2 =>
        if e = 'u' then
          match rest2 with
          | h1 :: h2 :: h3 :: h4 :: rest3 =>
            match fromHex4 h1 h2 h3 h4 with
            | none => none
            | some n =>
              if n < 0xD800 ∨ 0xE000 ≤ n then
                consChar (Char.ofNat n) (parseStrBody fuel rest3)
              else if n < 0xDC00 then
                match rest3 with
                | b1 :: u1 :: h5 :: h6 :: h7 :: h8 :: rest4 =>
                  if b1 = '\\' ∧ u1 = 'u' then
                    match fromHex4 h5 h6 h7 h8 with
                    | none => none
                    | some m =>
                      if 0xDC00 ≤ m ∧ m < 0xE000 then
                        consChar (Char.ofNat (0x10000 + (n - 0xD800) * 0x400 + (m - 0xDC00)))
                          (parseStrBody fuel rest4)
                      else none
                  else none
                | _ => none
              else none
          | _ => none
        else
          match shortEscape e with
          | some d => consChar d (parseStrBody fuel rest2)
          | none => none
    else if 0x20 ≤ c.toNat ∧ c.toNat ≤ 0x7e then
      consChar c (parseStrBody fuel rest)
    else none

/-- Parse one value: a string literal or a boolean literal. -/
def parseVal (s : List Char) : Option (JVal × List Char) :=
  match s with
  | 't' :: 'r' :: 'u' :: 'e' :: rest => some (.jbool true, rest)
  | 'f' :: 'a' :: 'l' :: 's' :: 'e' :: rest => some (.jbool false, rest)
  | '"' :: rest => (parseStrBody (rest.length + 1) rest).map (fun p => (.jstr p.1, p.2))
  | _ => none

/-- Parse a non-empty `", "`-separated entry list up to and including the
closing brace; `fuel` bounds the number of entries. -/
def parseEntries : Nat → List Char → Option (JObj × List Char)
  | 0, _ => none
  | fuel + 1, s =>
    match s with
    | '"' :: rest =>
      match parseStrBody (rest.length + 1) rest with
      | none => none
      | some (k, rest2) =>
        match rest2 with
        | ':' :: ' ' :: rest3 =>
          match parseVal rest3 with
          | none => none
          | some (v, rest4) =>
            match rest4 with
            | ',' :: ' ' :: rest5 =>
              (parseEntries fuel rest5).map (fun p => ((k, v) :: p.1, p.2))
            | '\x7d' :: rest5 => some ([(k, v)], rest5)
            | _ => none
        | _ => none
    | _ => none

/-- Parse a whole object, requiring the input to be consumed exactly. -/
def jparse (s : List Char) : Option JObj :=
  match s with
  | '\x7b' :: '\x7d' :: rest => if rest.isEmpty then some [] else none
  | '\x7b' :: rest =>
    match parseEntries (rest.length + 1) rest with
    | some (o, rest2) => if rest2.isEmpty then some o else none
    | none => none
  | _ => none

/-! ## Whitespace normalization -/

lemma splitAux_append_word (w : List Char) :
    ∀ (s acc : List Char), (∀ c ∈ w, pyIsSpace c = false) →
      splitAux (w ++ s) acc = splitAux s (w.reverse ++ acc) := by
  induction w with
  | nil => intro s acc _; simp
  | cons c w ih =>
    intro s acc h
    have hc : pyIsSpace c = false := h c (by simp)
    have hw : ∀ x ∈ w, pyIsSpace x = false := fun x hx => h x (by simp [hx])
    have hstep : splitAux (c :: (w ++ s)) acc = splitAux (w ++ s) (c :: acc) := by
      simp [splitAux, hc]
    rw [List.cons_append, hstep, ih s (c :: acc) hw]
    simp

lemma splitAux_words (s : List Char) :
    ∀ acc, (∀ c ∈ acc, pyIsSpace c = false) →
      ∀ w ∈ splitAux s acc, w ≠ [] ∧ ∀ c ∈ w, pyIsSpace c = false := by
  induction s with
  | nil =>
    intro acc hacc w hw
    unfold splitAux at hw
    by_cases h : acc.isEmpty
    · simp [h] at hw
    · simp [h] at hw
      subst hw
      refine ⟨?_, ?_⟩
      · simp only [ne_eq, List.reverse_eq_nil_iff]
        intro hnil
        rw [hnil] at h
        simp at h
      · intro c hc
        exact hacc c (List.mem_reverse.mp hc)
  | cons c cs ih =>
    intro acc hacc w hw
    unfold splitAux at hw
    by_cases hsp : pyIsSpace c
    · rw [if_pos hsp] at hw
      by_cases hac : acc.isEmpty
      · rw [if_pos hac] at hw
        exact ih [] (by simp) w hw
      · rw [if_neg hac] at hw
        rcases List.mem_cons.mp hw with hw | hw
        · subst hw
          refine ⟨?_, ?_⟩
          · simp only [ne_eq, List.reverse_eq_nil_iff]
            intro hnil
            rw [hnil] at hac
            simp at hac
          · intro x hx
            exact hacc x (List.mem_reverse.mp hx)
        · exact ih [] (by simp) w hw
    · rw [if_neg hsp] at hw
      refine ih (c :: acc) ?_ w hw
      intro x hx
      rcases List.mem_cons.mp hx with hx | hx
      · subst hx
        exact Bool.eq_false_iff.mpr hsp
      · exact hacc x hx

lemma pySplit_pyJoin (ws : List (List Char)) :
    (∀ w ∈ ws, w ≠ [] ∧ ∀ c ∈ w, pyIsSpace c = false) →
      pySplit (pyJoin [' '] ws) = ws := by
  induction ws with
  | nil => intro _; rfl
  | cons w ws ih =>
    intro h
    have hw : w ≠ [] ∧ ∀ c ∈ w, pyIsSpace c = false := h w (by simp)
    have hrev : w.reverse.isEmpty = false := by
      cases hWr : w.reverse with
      | nil => exact absurd (List.reverse_eq_nil_iff.mp hWr) hw.1
      | cons a l => rfl
    cases ws with
    | nil =>
      show splitAux (pyJoin [' '] [w]) [] = [w]
      have : pyJoin [' '] [w] = w ++ [] := by simp [pyJoin]
      rw [this, splitAux_append_word w [] [] hw.2]
      simp [splitAux, hrev]
    | cons v vs =>
      have hrest : ∀ u ∈ v :: vs, u ≠ [] ∧ ∀ c ∈ u, pyIsSpace c = false :=
        fun u hu => h u (by simp [hu])
      show splitAux (pyJoin [' '] (w :: v :: vs)) [] = w :: v :: vs
      have hjoin : pyJoin [' '] (w :: v :: vs) = w ++ (' ' :: pyJoin [' '] (v :: vs)) := by
        simp [pyJoin]
      rw [hjoin, splitAux_append_word w _ [] hw.2]
      have hstep : splitAux (' ' :: pyJoin [' '] (v :: vs)) (w.reverse ++ []) =
          w :: splitAux (pyJoin [' '] (v :: vs)) [] := by
        simp [splitAux, pyIsSpace, hrev]
      rw [hstep]
      have hih := ih hrest
      unfold pySplit at hih
      rw [hih]

/-- Claim C7 — whitespace normalization is idempotent: normalizing an
already-normalized string returns it unchanged, so
`normalize_text (normalize_text s) = normalize_text s` for every `s`. -/
theorem normalize_text_idempotent (s : List Char) :
    normalize_text (normalize_text s) = normalize_text s := by
  unfold normalize_text
  rw [pySplit_pyJoin (pySplit s) (splitAux_words s [] (by simp))]

/-! ## The math-likeness classifier -/

/-- Claim C2 — `contains_math_like s` is true exactly when `s` is empty,
or `s` has at least 3 characters from the math symbol set, or `s` has an
alphanumeric character and the symbol-to-length proportion exceeds `0.15`
(stated exactly as `3 * length < 20 * symbols`).  In particular a string
with 3 symbol characters is math-like whatever its length, and the empty
string is math-like. -/
theorem contains_math_like_characterization (s : List Char) :
    contains_math_like s = true ↔
      (s = [] ∨ 3 ≤ symbolCount s ∨
        (1 ≤ alnumCount s ∧ 3 * s.length < 20 * symbolCount s)) := by
  unfold contains_math_like
  by_cases h : s.isEmpty
  · simp only [h, if_true]
    have : s = [] := by simpa using h
    simp [this]
  · have hne : s ≠ [] := by simpa using h
    have hlen : 1 ≤ s.length := List.length_pos.mpr hne
    rw [if_neg h]
    simp [Nat.max_eq_right hlen, hne]

/-! ## The text-layer extractor -/

/-- Claim C6 — `extract_text` returns `""` (rather than raising) for any
1-based page number outside `[1, pageCount]`, and returns the clipped page
text with `None` coerced to `""` for page numbers inside the range. -/
theorem extract_text_page_range (doc : Doc) (page : Int) :
    ((page < 1 ∨ page > (doc.pageCount : Int)) → extract_text doc page = []) ∧
    (1 ≤ page → page ≤ (doc.pageCount : Int) →
      extract_text doc page = (doc.pageText (page - 1).toNat).getD []) := by
  constructor
  · intro h
    unfold extract_text
    rw [if_pos h]
  · intro h1 h2
    unfold extract_text
    rw [if_neg (by omega)]

/-- Concrete instance of `extract_text_page_range` on a one-page document:
page 0 is silently empty, page 1 returns the page text. -/
theorem extract_text_page_range_witness :
    extract_text ⟨1, fun _ => some (("t").data)⟩ 0 = [] ∧
    extract_text ⟨1, fun _ => some (("t").data)⟩ 1 = (("t").data) := by
  constructor
  · exact (extract_text_page_range ⟨1, fun _ => some (("t").data)⟩ 0).1 (Or.inl (by decide))
  · exact (extract_text_page_range ⟨1, fun _ => some (("t").data)⟩ 1).2 (by decide) (by decide)

/-! ## The local OCR fallback -/

/-- Claim C9 — `ocr_latexocr` creates its temporary PNG once and attempts
to delete it on every exit path: primary binary success, secondary binary
success, both failing, or a raised exception (timeout included).  The
file-system trace is always exactly create-then-unlink. -/
theorem latexocr_tmpfile_always_unlinked (env : SubprocEnv) :
    (ocr_latexocr env).2 = [FsEvent.createTmp, FsEvent.unlinkTmp] := by
  rcases env with ⟨r1, r2⟩
  cases r1 with
  | raises e => rfl
  | exits rc out e1 =>
    cases r2 with
    | raises e => by_cases h : rc = 0 <;> simp [ocr_latexocr, h]
    | exits rc2 out2 e2 =>
      by_cases h : rc = 0 <;> by_cases h2 : rc2 = 0 <;> simp [ocr_latexocr, h, h2]

/-! ## The orchestrator -/

/-- `ocr_mathpix` can only report the source tag `ocr-mathpix` on
success. -/
lemma ocr_mathpix_src (env : OcrEnv) (png : Nat) (t l s : List Char)
    (h : ocr_mathpix env png = .ok t l s) : s = ("ocr-mathpix").data := by
  unfold ocr_mathpix at h
  by_cases hc : pyTruthyOpt env.app_id = false ∨ pyTruthyOpt env.app_key = false
  · rw [if_pos hc] at h
    exact absurd h (by simp)
  · rw [if_neg hc] at h
    cases hr : env.response png with
    | exn e => rw [hr] at h; exact absurd h (by simp)
    | http st body => rw [hr] at h; exact absurd h (by simp)
    | success d =>
      rw [hr] at h
      simp only [OcrResult.ok.injEq] at h
      exact h.2.2.symm

/-- Claim C1 — when the normalized text layer is non-empty and the
classifier rejects it, the pipeline succeeds immediately with that text,
source `smart` and empty LaTeX, and performs no external call: neither the
rasterizer nor any OCR client runs. -/
theorem smart_branch_immediate (doc : Doc) (page : Int) (env : OcrEnv)
    (h1 : normalize_text (extract_text doc page) ≠ [])
    (h2 : contains_math_like (normalize_text (extract_text doc page)) = false) :
    run_pipeline doc page env =
      (PipeResult.ok (normalize_text (extract_text doc page)) [] (("smart").data), []) := by
  unfold run_pipeline
  rw [if_pos ⟨h1, h2⟩]

/-- Concrete instance of `smart_branch_immediate`: prose text on a
one-page document, no credentials needed. -/
theorem smart_branch_immediate_witness :
    normalize_text (extract_text ⟨1, fun _ => some (("hello world").data)⟩ 1) ≠ [] ∧
    run_pipeline ⟨1, fun _ => some (("hello world").data)⟩ 1 ⟨none, none, fun _ => .exn []⟩ =
      (PipeResult.ok (("hello world").data) [] (("smart").data), []) := by
  refine ⟨by decide, ?_⟩
  exact smart_branch_immediate ⟨1, fun _ => some (("hello world").data)⟩ 1
    ⟨none, none, fun _ => .exn []⟩ (by decide) (by decide)

/-- Claim C5 — when the normalized text layer is empty, the pipeline's
outcome never carries the source tag `smart`. -/
theorem empty_text_never_smart (doc : Doc) (page : Int) (env : OcrEnv)
    (h : normalize_text (extract_text doc page) = []) :
    sourceTag (run_pipeline doc page env).1 ≠ some (("smart").data) := by
  unfold run_pipeline
  rw [if_neg (by simp [h])]
  cases hr : render_region_png doc page with
  | error e => simp [sourceTag]
  | ok png =>
    cases ho : ocr_mathpix env png with
    | err e => simp [ho, h, sourceTag]
    | ok t l src =>
      have hsrc := ocr_mathpix_src env png t l src ho
      subst hsrc
      simp [ho, sourceTag]

/-- Concrete instance of `empty_text_never_smart`: a document whose text
layer is absent. -/
theorem empty_text_never_smart_witness :
    normalize_text (extract_text ⟨1, fun _ => none⟩ 1) = [] ∧
    sourceTag (run_pipeline ⟨1, fun _ => none⟩ 1 ⟨none, none, fun _ => .exn []⟩).1 ≠
      some (("smart").data) := by
  refine ⟨by decide, ?_⟩
  exact empty_text_never_smart ⟨1, fun _ => none⟩ 1 ⟨none, none, fun _ => .exn []⟩ (by decide)

/-- A page number whose text extraction is non-empty lies in
`[1, pageCount]`. -/
lemma page_in_range_of_extract_ne (doc : Doc) (page : Int)
    (h : extract_text doc page ≠ []) :
    1 ≤ page ∧ page ≤ (doc.pageCount : Int) := by
  by_cases hcond : page < 1 ∨ page > (doc.pageCount : Int)
  · unfold extract_text at h
    rw [if_pos hcond] at h
    exact absurd rfl h
  · omega

/-- Rendering succeeds on an in-range page. -/
lemma render_ok_of_in_range (doc : Doc) (page : Int)
    (h1 : 1 ≤ page) (h2 : page ≤ (doc.pageCount : Int)) :
    render_region_png doc page = .ok (page - 1).toNat := by
  have h3 : ¬(page - 1 < 0) := by omega
  have h4 : (0:Int) ≤ page - 1 ∧ page - 1 < (doc.pageCount : Int) := by omega
  simp [render_region_png, load_page, h3, h4]

/-- `normalize_text` of the empty string is empty, so a non-empty
normalization forces a non-empty extraction. -/
lemma extract_ne_of_normalize_ne (doc : Doc) (page : Int)
    (h : normalize_text (extract_text doc page) ≠ []) :
    extract_text doc page ≠ [] := by
  intro he
  rw [he] at h
  exact h rfl

/-- Claim C3 — with a missing or empty credential variable, `ocr_mathpix`
returns a failure dictionary (it does not raise), and the pipeline then
degrades: a non-empty (math-like) text layer yields `text-fallback`
success, and an empty text layer yields a failure whose message mentions
the missing credentials. -/
theorem missing_credentials_fallback (env : OcrEnv) (doc : Doc) (page : Int) (png : Nat)
    (hcred : pyTruthyOpt env.app_id = false ∨ pyTruthyOpt env.app_key = false) :
    ocr_mathpix env png = .err (("MathPix credentials missing").data) ∧
    (normalize_text (extract_text doc page) ≠ [] →
      contains_math_like (normalize_text (extract_text doc page)) = true →
      (run_pipeline doc page env).1 =
        .ok (normalize_text (extract_text doc page)) [] (("text-fallback").data)) ∧
    (normalize_text (extract_text doc page) = [] →
      (render_region_png doc page).isOk = true →
      ((run_pipeline doc page env).1 =
          .err ((("MathPix failed: ").data ++ ("MathPix credentials missing").data) ) ∧
        containsSub (("credentials missing").data)
          ((("MathPix failed: ").data ++ ("MathPix credentials missing").data)) = true)) := by
  have hmp : ∀ p, ocr_mathpix env p = .err (("MathPix credentials missing").data) := by
    intro p
    unfold ocr_mathpix
    rw [if_pos hcred]
  refine ⟨hmp png, ?_, ?_⟩
  · intro hne hml
    have hrange := page_in_range_of_extract_ne doc page (extract_ne_of_normalize_ne doc page hne)
    have hrender := render_ok_of_in_range doc page hrange.1 hrange.2
    unfold run_pipeline
    rw [if_neg (by simp [hml]), hrender]
    simp [hmp, hne]
  · intro hempty hrok
    cases hrender : render_region_png doc page with
    | error e =>
      unfold Except.isOk Except.toBool at hrok
      rw [hrender] at hrok
      simp at hrok
    | ok p =>
      refine ⟨?_, by decide⟩
      unfold run_pipeline
      rw [if_neg (by simp [hempty]), hrender]
      simp [hmp, hempty]

/-- Concrete instance of `missing_credentials_fallback`: both credential
variables unset, math-like text layer `x+y=z`, one-page document. -/
theorem missing_credentials_fallback_witness :
    (pyTruthyOpt (none : Option (List Char)) = false ∨
      pyTruthyOpt (none : Option (List Char)) = false) ∧
    (run_pipeline ⟨1, fun _ => some (("x+y=z").data)⟩ 1 ⟨none, none, fun _ => .exn []⟩).1 =
      .ok (("x+y=z").data) [] (("text-fallback").data) := by
  refine ⟨Or.inl rfl, ?_⟩
  exact (missing_credentials_fallback ⟨none, none, fun _ => .exn []⟩
    ⟨1, fun _ => some (("x+y=z").data)⟩ 1 0 (Or.inl rfl)).2.1 (by decide) (by decide)

/-- Claim C10, counterexample — page number 0 is outside `[1, 1]`, yet the
pipeline can succeed: `extract_text` yields `""`, but `doc[-1]` is a valid
PyMuPDF index (negative numbers count from the end of the document), so
the rasterizer renders the last page instead of raising, and a successful
OCR response makes the run end with `ok: true`. -/
theorem out_of_range_page_can_succeed :
    ((0:Int) < 1 ∨ (0:Int) > ((Doc.mk 1 (fun _ => none)).pageCount : Int)) ∧
    (run_pipeline ⟨1, fun _ => none⟩ 0
        ⟨some (("i").data), some (("k").data),
          fun _ => .success ⟨("E=mc^2").data, none, none, some (("E=mc^2").data)⟩⟩).1 =
      .ok (("E=mc^2").data) (("E=mc^2").data) (("ocr-mathpix").data) := by
  exact ⟨Or.inl (by decide), by decide⟩

/-- Claim C10, amended — for a page number above `pageCount`, or at most
`-pageCount` (so that even PyMuPDF's negative indexing is out of range),
the pipeline produces a failure: extraction is empty, the empty string is
math-like, and the rasterizer's index error is converted by the top-level
handler into the JSON failure.  For page numbers in `[1 - pageCount, 0]`
the rasterizer instead silently renders a page counted from the end (see
`out_of_range_page_can_succeed`). -/
theorem out_of_range_page_failure (doc : Doc) (page : Int) (env : OcrEnv)
    (h : page > (doc.pageCount : Int) ∨ page + (doc.pageCount : Int) ≤ 0) :
    extract_text doc page = [] ∧
    contains_math_like (normalize_text (extract_text doc page)) = true ∧
    run_pipeline doc page env = (.err (("page not in document").data), [.render]) := by
  have hc : (0:Int) ≤ (doc.pageCount : Int) := Int.natCast_nonneg _
  have hout : page < 1 ∨ page > (doc.pageCount : Int) := by omega
  have hext : extract_text doc page = [] := by
    unfold extract_text
    rw [if_pos hout]
  have hrender : render_region_png doc page = .error (("page not in document").data) := by
    have hcond : ¬(0 ≤ (if page - 1 < 0 then page - 1 + (doc.pageCount : Int) else page - 1) ∧
        (if page - 1 < 0 then page - 1 + (doc.pageCount : Int) else page - 1) <
          (doc.pageCount : Int)) := by
      by_cases hneg : page - 1 < 0 <;> simp [hneg] <;> omega
    simp only [render_region_png, load_page]
    rw [if_neg hcond]
  have hraw : normalize_text (extract_text doc page) = [] := by rw [hext]; rfl
  refine ⟨hext, by rw [hraw]; decide, ?_⟩
  unfold run_pipeline
  rw [if_neg (by simp [hraw]), hrender]

/-- Concrete instance of `out_of_range_page_failure`: page 2 of a one-page
document. -/
theorem out_of_range_page_failure_witness :
    run_pipeline ⟨1, fun _ => none⟩ 2 ⟨none, none, fun _ => .exn []⟩ =
      (.err (("page not in document").data), [.render]) :=
  (out_of_range_page_failure ⟨1, fun _ => none⟩ 2 ⟨none, none, fun _ => .exn []⟩
    (Or.inl (by decide))).2.2

/-! ## The remote OCR client's LaTeX assembly -/

/-- Claim C8 — in a successful MathPix response, when the assembled LaTeX
(block list joined with blank lines, else the `latex_simplified`/`latex`
fields) is empty but the text field is non-empty and contains an inline or
display math delimiter, the returned `latex` equals the text field. -/
theorem mathpix_text_reused_as_latex (env : OcrEnv) (png : Nat) (data : MpData)
    (hid : pyTruthyOpt env.app_id = true) (hkey : pyTruthyOpt env.app_key = true)
    (hresp : env.response png = .success data)
    (hlatex : pyOrStr
        (pyJoin (("\n\n").data) (((data.latex_styled).getD []).map (fun b => (b.latex).getD [])))
        (pyOrStr ((data.latex_simplified).getD []) ((data.latex).getD [])) = [])
    (htext : data.text ≠ [])
    (hdelim : containsSub (("\\(").data) data.text = true ∨
      containsSub (("\\[").data) data.text = true ∨
      containsSub (("$$").data) data.text = true) :
    ocr_mathpix env png = .ok data.text data.text (("ocr-mathpix").data) := by
  unfold ocr_mathpix
  rw [if_neg (by simp [hid, hkey]), hresp]
  rcases hdelim with hd | hd | hd <;> simp [hlatex, htext, hd]

/-- Concrete instance of `mathpix_text_reused_as_latex`: a response with
no LaTeX fields whose text is `$$x$$`. -/
theorem mathpix_text_reused_as_latex_witness :
    ocr_mathpix
        ⟨some (("i").data), some (("k").data),
          fun _ => .success ⟨("$$x$$").data, none, none, none⟩⟩ 0 =
      .ok (("$$x$$").data) (("$$x$$").data) (("ocr-mathpix").data) := by
  exact mathpix_text_reused_as_latex
    ⟨some (("i").data), some (("k").data), fun _ => .success ⟨("$$x$$").data, none, none, none⟩⟩
    0 ⟨("$$x$$").data, none, none, none⟩ rfl rfl rfl (by decide) (by decide)
    (Or.inr (Or.inr (by decide)))

/-! ## The JSON output channel

The remaining lemmas show that every line the script prints is a
well-formed, newline-free JSON object that a strict parser maps back to
the printed dictionary. -/

/-- Every Unicode scalar value is below `0x110000`. -/
lemma char_toNat_lt (c : Char) : c.toNat < 0x110000 := by
  have h := c.valid
  unfold isValidChar at h
  unfold Char.toNat
  rcases h with h | ⟨h1, h2⟩ <;> omega

/-- No Unicode scalar value lies in the surrogate range. -/
lemma char_not_surrogate (c : Char) : c.toNat < 0xD800 ∨ 0xE000 ≤ c.toNat := by
  have h := c.valid
  unfold isValidChar at h
  unfold Char.toNat
  rcases h with h | ⟨h1, h2⟩
  · exact Or.inl (by omega)
  · exact Or.inr (by omega)

lemma hexDig_range (m : Nat) (h : m < 16) :
    48 ≤ (hexDig m).toNat ∧ (hexDig m).toNat ≤ 102 := by
  interval_cases m <;> exact ⟨by decide, by decide⟩

lemma hexVal_hexDig (m : Nat) (h : m < 16) : hexVal (hexDig m) = some m := by
  interval_cases m <;> decide

lemma fromHex4_toHex4 (n : Nat) (h : n < 65536) :
    fromHex4 (hexDig (n / 4096)) (hexDig (n / 256 % 16)) (hexDig (n / 16 % 16))
      (hexDig (n % 16)) = some n := by
  unfold fromHex4
  rw [hexVal_hexDig (n / 4096) (by omega), hexVal_hexDig (n / 256 % 16) (by omega),
    hexVal_hexDig (n / 16 % 16) (by omega), hexVal_hexDig (n % 16) (by omega)]
  simp only [Option.some.injEq]
  omega

lemma parseStrBody_u_step (fuel : Nat) (t : List Char) (d1 d2 d3 d4 : Char) (n : Nat)
    (hfh : fromHex4 d1 d2 d3 d4 = some n) (hs : n < 0xD800 ∨ 0xE000 ≤ n) :
    parseStrBody (fuel + 1) ('\\' :: 'u' :: d1 :: d2 :: d3 :: d4 :: t) =
      consChar (Char.ofNat n) (parseStrBody fuel t) := by
  simp [parseStrBody, hfh]
  intro hlow hhigh
  exact ((by omega : False)).elim

lemma parseStrBody_pair_step (fuel : Nat) (t : List Char) (d1 d2 d3 d4 d5 d6 d7 d8 : Char)
    (n m : Nat) (hf1 : fromHex4 d1 d2 d3 d4 = some n) (hn1 : 0xD800 ≤ n) (hn2 : n < 0xDC00)
    (hf2 : fromHex4 d5 d6 d7 d8 = some m) (hm1 : 0xDC00 ≤ m) (hm2 : m < 0xE000) :
    parseStrBody (fuel + 1)
      ('\\' :: 'u' :: d1 :: d2 :: d3 :: d4 :: '\\' :: 'u' :: d5 :: d6 :: d7 :: d8 :: t) =
      consChar (Char.ofNat (0x10000 + (n - 0xD800) * 0x400 + (m - 0xDC00)))
        (parseStrBody fuel t) := by
  simp [parseStrBody, hf1, hf2]
  rw [if_neg (by omega), if_pos hn2, if_pos ⟨hm1, hm2⟩]

lemma parseStrBody_unicode (fuel : Nat) (t : List Char) (n : Nat) (hn : n < 65536)
    (hs : n < 0xD800 ∨ 0xE000 ≤ n) :
    parseStrBody (fuel + 1) ('\\' :: 'u' :: (toHex4 n ++ t)) =
      consChar (Char.ofNat n) (parseStrBody fuel t) := by
  simp only [toHex4, List.cons_append, List.nil_append]
  rw [parseStrBody_u_step fuel t _ _ _ _ n (fromHex4_toHex4 n hn) hs]

lemma parseStrBody_surrogate (fuel : Nat) (t : List Char) (n : Nat)
    (hn : 0x10000 ≤ n) (hn2 : n < 0x110000) :
    parseStrBody (fuel + 1)
      ('\\' :: 'u' :: (toHex4 (0xD800 + (n - 0x10000) / 0x400) ++
        ('\\' :: 'u' :: (toHex4 (0xDC00 + (n - 0x10000) % 0x400) ++ t)))) =
      consChar (Char.ofNat n) (parseStrBody fuel t) := by
  have hq : (n - 0x10000) / 0x400 < 0x400 := by omega
  have hr : (n - 0x10000) % 0x400 < 0x400 := Nat.mod_lt _ (by omega)
  simp only [toHex4, List.cons_append, List.nil_append]
  rw [parseStrBody_pair_step fuel t _ _ _ _ _ _ _ _
    (0xD800 + (n - 0x10000) / 0x400) (0xDC00 + (n - 0x10000) % 0x400)
    (fromHex4_toHex4 _ (by omega)) (by omega) (by omega)
    (fromHex4_toHex4 _ (by omega)) (by omega) (by omega)]
  have harg : 0x10000 + (0xD800 + (n - 0x10000) / 0x400 - 0xD800) * 0x400 +
      (0xDC00 + (n - 0x10000) % 0x400 - 0xDC00) = n := by
    have := Nat.div_add_mod (n - 0x10000) 0x400
    omega
  rw [harg]

lemma parseStrBody_encodeChar (c : Char) (t : List Char) (fuel : Nat) :
    parseStrBody (fuel + 1) (encodeChar c ++ t) = consChar c (parseStrBody fuel t) := by
  unfold encodeChar
  split_ifs with h1 h2 h3 h4 h5 h6 h7 h8 h9
  · subst h1; simp [parseStrBody, shortEscape]
  · subst h2; simp [parseStrBody, shortEscape]
  · subst h3; simp [parseStrBody, shortEscape]
  · subst h4; simp [parseStrBody, shortEscape]
  · subst h5; simp [parseStrBody, shortEscape]
  · subst h6; simp [parseStrBody, shortEscape]
  · subst h7; simp [parseStrBody, shortEscape]
  · simp [parseStrBody, h1, h2, h8.1, h8.2]
  · have hs := char_not_surrogate c
    rw [show ('\\' :: 'u' :: toHex4 c.toNat) ++ t = '\\' :: 'u' :: (toHex4 c.toNat ++ t) by simp]
    rw [parseStrBody_unicode fuel t c.toNat h9 hs, Char.ofNat_toNat]
  · have hlt := char_toNat_lt c
    have hge : 0x10000 ≤ c.toNat := by omega
    rw [show (('\\' :: 'u' :: toHex4 (0xD800 + (c.toNat - 0x10000) / 0x400)) ++
        ('\\' :: 'u' :: toHex4 (0xDC00 + (c.toNat - 0x10000) % 0x400))) ++ t =
        '\\' :: 'u' :: (toHex4 (0xD800 + (c.toNat - 0x10000) / 0x400) ++
          ('\\' :: 'u' :: (toHex4 (0xDC00 + (c.toNat - 0x10000) % 0x400) ++ t))) by simp]
    rw [parseStrBody_surrogate fuel t c.toNat hge hlt, Char.ofNat_toNat]

lemma parseStrBody_strBodyDump (s : List Char) :
    ∀ (t : List Char) (fuel : Nat), s.length < fuel →
      parseStrBody fuel (strBodyDump s ++ '"' :: t) = some (s, t) := by
  induction s with
  | nil =>
    intro t fuel hf
    cases fuel with
    | zero => omega
    | succ f => simp [strBodyDump, parseStrBody]
  | cons c s ih =>
    intro t fuel hf
    cases fuel with
    | zero => omega
    | succ f =>
      have hshape : strBodyDump (c :: s) ++ '"' :: t =
          encodeChar c ++ (strBodyDump s ++ '"' :: t) := by
        simp [strBodyDump]
      rw [hshape, parseStrBody_encodeChar,
        ih t f (by simpa using Nat.lt_of_succ_lt_succ hf)]
      rfl

lemma one_le_encodeChar_length (c : Char) : 1 ≤ (encodeChar c).length := by
  unfold encodeChar
  split_ifs <;> simp

lemma length_le_strBodyDump (s : List Char) : s.length ≤ (strBodyDump s).length := by
  induction s with
  | nil => simp [strBodyDump]
  | cons c s ih =>
    have h := one_le_encodeChar_length c
    have hshape : strBodyDump (c :: s) = encodeChar c ++ strBodyDump s := by
      simp [strBodyDump]
    rw [hshape]
    simp only [List.length_append, List.length_cons]
    omega

lemma parseVal_jvalDump (v : JVal) (t : List Char) :
    parseVal (jvalDump v ++ t) = some (v, t) := by
  cases v with
  | jbool b => cases b <;> rfl
  | jstr s =>
    have hshape : jvalDump (.jstr s) ++ t = '"' :: (strBodyDump s ++ '"' :: t) := by
      simp [jvalDump, encodeStr]
    rw [hshape]
    simp [parseVal]
    exact parseStrBody_strBodyDump s t _ (by have := length_le_strBodyDump s; omega)

lemma entriesDump_length (o : JObj) : o.length ≤ (entriesDump o).length := by
  induction o with
  | nil => simp [entriesDump]
  | cons kv rest ih =>
    rcases kv with ⟨k, v⟩
    cases rest with
    | nil =>
      simp only [entriesDump, encodeStr, List.length_cons, List.length_append,
        List.length_nil]
      omega
    | cons kv2 rest2 =>
      simp only [entriesDump, encodeStr, List.length_cons, List.length_append,
        List.length_nil] at ih ⊢
      omega

lemma parseEntries_entriesDump (o : JObj) :
    ∀ (t : List Char) (fuel : Nat), o ≠ [] → o.length ≤ fuel →
      parseEntries fuel (entriesDump o ++ '\x7d' :: t) = some (o, t) := by
  induction o with
  | nil => intro t fuel h _; exact absurd rfl h
  | cons kv rest ih =>
    intro t fuel _ hlen
    rcases kv with ⟨k, v⟩
    cases fuel with
    | zero => simp at hlen
    | succ f =>
      cases rest with
      | nil =>
        have hshape : entriesDump [(k, v)] ++ '\x7d' :: t =
            '"' :: (strBodyDump k ++ '"' :: (':' :: ' ' :: (jvalDump v ++ '\x7d' :: t))) := by
          simp [entriesDump, encodeStr]
        rw [hshape]
        simp only [parseEntries]
        rw [parseStrBody_strBodyDump k _ _
          (by have := length_le_strBodyDump k
              simp only [List.length_append, List.length_cons]
              omega)]
        simp only [parseVal_jvalDump v ('\x7d' :: t)]
      | cons kv2 rest2 =>
        have hshape : entriesDump ((k, v) :: kv2 :: rest2) ++ '\x7d' :: t =
            '"' :: (strBodyDump k ++ '"' :: (':' :: ' ' ::
              (jvalDump v ++ ',' :: ' ' :: (entriesDump (kv2 :: rest2) ++ '\x7d' :: t)))) := by
          simp [entriesDump, encodeStr]
        rw [hshape]
        simp only [parseEntries]
        rw [parseStrBody_strBodyDump k _ _
          (by have := length_le_strBodyDump k
              simp only [List.length_append, List.length_cons]
              omega)]
        simp only [parseVal_jvalDump v
          (',' :: ' ' :: (entriesDump (kv2 :: rest2) ++ '\x7d' :: t))]
        rw [ih t f (by simp) (by simp only [List.length_cons] at hlen ⊢; omega)]
        rfl

lemma jparse_jdumps (o : JObj) : jparse (jdumps o) = some o := by
  cases o with
  | nil => rfl
  | cons kv rest =>
    rcases kv with ⟨k, v⟩
    obtain ⟨Z, hZ⟩ : ∃ Z, entriesDump ((k, v) :: rest) = '"' :: Z := by
      cases rest with
      | nil =>
        exact ⟨strBodyDump k ++ '"' :: ':' :: ' ' :: jvalDump v,
          by simp [entriesDump, encodeStr]⟩
      | cons kv2 rest2 =>
        exact ⟨strBodyDump k ++ '"' :: ':' :: ' ' ::
            (jvalDump v ++ ',' :: ' ' :: entriesDump (kv2 :: rest2)),
          by simp [entriesDump, encodeStr]⟩
    have hj : jdumps ((k, v) :: rest) = '\x7b' :: '"' :: (Z ++ ['\x7d']) := by
      simp [jdumps, hZ]
    have hstep : jparse ('\x7b' :: '"' :: (Z ++ ['\x7d'])) =
        match parseEntries (('"' :: (Z ++ ['\x7d'])).length + 1) ('"' :: (Z ++ ['\x7d'])) with
        | some (obj, rest2) => if rest2.isEmpty then some obj else none
        | none => none := rfl
    have hfull : '"' :: (Z ++ ['\x7d']) = entriesDump ((k, v) :: rest) ++ '\x7d' :: [] := by
      rw [hZ]
      simp
    rw [hj, hstep, hfull, parseEntries_entriesDump ((k, v) :: rest) [] _ (by simp)
      (by have := entriesDump_length ((k, v) :: rest)
          simp only [List.length_cons, List.length_append] at this ⊢
          omega)]
    rfl

lemma hexDig_ge32 (m : Nat) (h : m < 16) : 32 ≤ (hexDig m).toNat :=
  le_trans (by decide) (hexDig_range m h).1

lemma toHex4_ge32 (n : Nat) (h : n < 65536) : ∀ x ∈ toHex4 n, 32 ≤ x.toNat := by
  intro x hx
  simp only [toHex4, List.mem_cons, List.not_mem_nil, or_false] at hx
  rcases hx with rfl | rfl | rfl | rfl
  · exact hexDig_ge32 _ (by omega)
  · exact hexDig_ge32 _ (Nat.mod_lt _ (by decide))
  · exact hexDig_ge32 _ (Nat.mod_lt _ (by decide))
  · exact hexDig_ge32 _ (Nat.mod_lt _ (by decide))

lemma encodeChar_ge (c : Char) : ∀ x ∈ encodeChar c, 32 ≤ x.toNat := by
  intro x hx
  unfold encodeChar at hx
  split_ifs at hx with h1 h2 h3 h4 h5 h6 h7 h8 h9
  · simp only [List.mem_cons, List.not_mem_nil, or_false] at hx
    rcases hx with rfl | rfl <;> decide
  · simp only [List.mem_cons, List.not_mem_nil, or_false] at hx
    rcases hx with rfl | rfl <;> decide
  · simp only [List.mem_cons, List.not_mem_nil, or_false] at hx
    rcases hx with rfl | rfl <;> decide
  · simp only [List.mem_cons, List.not_mem_nil, or_false] at hx
    rcases hx with rfl | rfl <;> decide
  · simp only [List.mem_cons, List.not_mem_nil, or_false] at hx
    rcases hx with rfl | rfl <;> decide
  · simp only [List.mem_cons, List.not_mem_nil, or_false] at hx
    rcases hx with rfl | rfl <;> decide
  · simp only [List.mem_cons, List.not_mem_nil, or_false] at hx
    rcases hx with rfl | rfl <;> decide
  · simp only [List.mem_singleton] at hx
    subst hx
    exact h8.1
  · rcases List.mem_cons.mp hx with rfl | hx
    · decide
    · rcases List.mem_cons.mp hx with rfl | hx
      · decide
      · exact toHex4_ge32 _ h9 x hx
  · have hlt := char_toNat_lt c
    have hq : (c.toNat - 0x10000) / 0x400 < 0x400 := by omega
    have hhi : 0xD800 + (c.toNat - 0x10000) / 0x400 < 65536 := by omega
    have hlo : 0xDC00 + (c.toNat - 0x10000) % 0x400 < 65536 := by
      have := Nat.mod_lt (c.toNat - 0x10000) (y := 0x400) (by omega)
      omega
    rcases List.mem_append.mp hx with hx | hx
    · rcases List.mem_cons.mp hx with rfl | hx
      · decide
      · rcases List.mem_cons.mp hx with rfl | hx
        · decide
        · exact toHex4_ge32 _ hhi x hx
    · rcases List.mem_cons.mp hx with rfl | hx
      · decide
      · rcases List.mem_cons.mp hx with rfl | hx
        · decide
        · exact toHex4_ge32 _ hlo x hx

lemma strBodyDump_ge (s : List Char) : ∀ x ∈ strBodyDump s, 32 ≤ x.toNat := by
  intro x hx
  unfold strBodyDump at hx
  rw [List.mem_flatten] at hx
  obtain ⟨l, hl, hxl⟩ := hx
  rw [List.mem_map] at hl
  obtain ⟨c, _, rfl⟩ := hl
  exact encodeChar_ge c x hxl

lemma encodeStr_ge (s : List Char) : ∀ x ∈ encodeStr s, 32 ≤ x.toNat := by
  intro x hx
  unfold encodeStr at hx
  rcases List.mem_cons.mp hx with hx | hx
  · subst hx; decide
  · rcases List.mem_append.mp hx with hx | hx
    · exact strBodyDump_ge s x hx
    · simp only [List.mem_singleton] at hx; subst hx; decide

lemma jvalDump_ge (v : JVal) : ∀ x ∈ jvalDump v, 32 ≤ x.toNat := by
  intro x hx
  cases v with
  | jstr s => exact encodeStr_ge s x hx
  | jbool b =>
    cases b with
    | true =>
      have hb : jvalDump (.jbool true) = ['t', 'r', 'u', 'e'] := rfl
      rw [hb] at hx
      simp only [List.mem_cons, List.not_mem_nil, or_false] at hx
      rcases hx with rfl | rfl | rfl | rfl <;> decide
    | false =>
      have hb : jvalDump (.jbool false) = ['f', 'a', 'l', 's', 'e'] := rfl
      rw [hb] at hx
      simp only [List.mem_cons, List.not_mem_nil, or_false] at hx
      rcases hx with rfl | rfl | rfl | rfl | rfl <;> decide

lemma entriesDump_ge (o : JObj) : ∀ x ∈ entriesDump o, 32 ≤ x.toNat := by
  induction o with
  | nil => intro x hx; simp [entriesDump] at hx
  | cons kv rest ih =>
    rcases kv with ⟨k, v⟩
    intro x hx
    cases rest with
    | nil =>
      simp only [entriesDump] at hx
      rcases List.mem_append.mp hx with hx | hx
      · exact encodeStr_ge k x hx
      · rcases List.mem_cons.mp hx with rfl | hx
        · decide
        · rcases List.mem_cons.mp hx with rfl | hx
          · decide
          · exact jvalDump_ge v x hx
    | cons kv2 rest2 =>
      simp only [entriesDump] at hx
      rcases List.mem_append.mp hx with hx | hx
      · exact encodeStr_ge k x hx
      · rcases List.mem_cons.mp hx with rfl | hx
        · decide
        · rcases List.mem_cons.mp hx with rfl | hx
          · decide
          · rcases List.mem_append.mp hx with hx | hx
            · exact jvalDump_ge v x hx
            · rcases List.mem_cons.mp hx with rfl | hx
              · decide
              · rcases List.mem_cons.mp hx with rfl | hx
                · decide
                · exact ih x hx

lemma jdumps_ge (o : JObj) : ∀ x ∈ jdumps o, 32 ≤ x.toNat := by
  intro x hx
  unfold jdumps at hx
  rcases List.mem_cons.mp hx with hx | hx
  · subst hx; decide
  · rcases List.mem_append.mp hx with hx | hx
    · exact entriesDump_ge o x hx
    · simp only [List.mem_singleton] at hx; subst hx; decide

lemma jdumps_no_newline (o : JObj) : (jdumps o).contains '\n' = false := by
  cases hc : (jdumps o).contains '\n' with
  | false => rfl
  | true =>
    have hmem : ('\n' : Char) ∈ jdumps o := by simpa using hc
    exact absurd (jdumps_ge o '\n' hmem) (by decide)

/-- Every branch of the script prints `resultToJson` of some outcome. -/
lemma script_shape (w : World) : ∃ r, script w = (resultToJson r, 0) := by
  rcases w with ⟨fi, ao, oo, env⟩
  cases fi with
  | some e => exact ⟨_, rfl⟩
  | none =>
    cases ao with
    | error e => exact ⟨_, rfl⟩
    | ok page =>
      cases oo with
      | error e => exact ⟨_, rfl⟩
      | ok doc => exact ⟨_, rfl⟩

/-- `resultToJson` always puts the `ok` boolean first. -/
lemma resultToJson_ok_first (r : PipeResult) :
    ∃ b tail, resultToJson r = ((("ok").data), JVal.jbool b) :: tail := by
  cases r with
  | ok t l s => exact ⟨true, _, rfl⟩
  | err e => exact ⟨false, _, rfl⟩

/-- Claim C4 — for every invocation (bad arguments, missing PyMuPDF,
document errors, any OCR outcome) the script exits with status 0 and
prints exactly one JSON object, which contains no newline (so it is one
line), parses back to the printed dictionary, and carries the `ok` boolean
as its first field — the sole success/failure channel. -/
theorem script_output_json_wellformed (w : World) :
    (script w).2 = 0 ∧
    (jdumps (script w).1).contains '\n' = false ∧
    jparse (jdumps (script w).1) = some (script w).1 ∧
    ∃ b tail, (script w).1 = ((("ok").data), JVal.jbool b) :: tail := by
  obtain ⟨r, hr⟩ := script_shape w
  refine ⟨by rw [hr], jdumps_no_newline _, jparse_jdumps _, ?_⟩
  rw [hr]
  exact resultToJson_ok_first r
